import Mathlib

/-!
Shallow embedding of `.github/scripts/generate_index.py`.

The script scans a source directory tree for `*.html` files (excluding
`index.html`), sorts them case-insensitively by their computed href,
renders a card grid page, and writes `index.html` into an output
directory.  Python string operations are modelled structurally over
`List Char` (ASCII case mapping, as all keywords and filenames of
interest are ASCII), so that every definition reduces in the kernel.
-/

namespace GenIndex

/-- Models Python `str.upper` (ASCII case mapping). -/
def upperStr (s : String) : String := ⟨s.data.map Char.toUpper⟩

/-- Models Python `str.lower` (ASCII case mapping). -/
def lowerStr (s : String) : String := ⟨s.data.map Char.toLower⟩

/-- If `pat` is a prefix of `s`, strip it and return the remainder. -/
def stripPre : List Char → List Char → Option (List Char)
  | s, [] => some s
  | [], _ :: _ => none
  | c :: cs, p :: ps => if c == p then stripPre cs ps else none

/-- Fuelled left-to-right non-overlapping replace-all over character
lists; `fuel = s.length` is always sufficient for a nonempty pattern
since each step consumes at least one character. -/
def replFuel (pat rep : List Char) : Nat → List Char → List Char
  | 0, s => s
  | _ + 1, [] => []
  | fuel + 1, c :: cs =>
    match stripPre (c :: cs) pat with
    | some rest => rep ++ replFuel pat rep fuel rest
    | none => c :: replFuel pat rep fuel cs

/-- Models Python `str.replace` for nonempty patterns (all occurrences,
leftmost first, non-overlapping).  The script only ever replaces the
nonempty patterns `".html"`, `"-"` and a backslash. -/
def pyReplace (s pat rep : String) : String :=
  if pat.data.isEmpty then s
  else ⟨replFuel pat.data rep.data s.data.length s.data⟩

/-- Does `pat` occur as a contiguous substring?  Models Python `pat in s`. -/
def hasSub (pat : List Char) : List Char → Bool
  | [] => (stripPre [] pat).isSome
  | c :: cs => (stripPre (c :: cs) pat).isSome || hasSub pat cs

/-- Models Python `pat in s` on strings. -/
def pyIn (pat s : String) : Bool := hasSub pat.data s.data

/-- Models Python `str.endswith`. -/
def pyEndsWith (s suf : String) : Bool := suf.data.isSuffixOf s.data

/-- Models `os.path.basename` on POSIX paths: the suffix after the last
slash. -/
def basenameAux (cur : List Char) : List Char → List Char
  | [] => cur
  | c :: cs => if c == '/' then basenameAux [] cs else basenameAux (cur ++ [c]) cs

/-- Models `os.path.basename`. -/
def basename (p : String) : String := ⟨basenameAux [] p.data⟩

/-- Lexicographic comparison of character lists by code point; models
Python string `<=` as used by `list.sort` on the lowercased hrefs. -/
def lexLE : List Char → List Char → Bool
  | [], _ => true
  | _ :: _, [] => false
  | a :: as, b :: bs =>
    if a.toNat < b.toNat then true
    else if b.toNat < a.toNat then false
    else lexLE as bs

/-- Models the binary step of POSIX `os.path.join`: an absolute second
component resets the path; otherwise a separator is inserted unless one
is already present or the accumulated path is empty. -/
def pathJoin (a b : String) : String :=
  if "/".data.isPrefixOf b.data then b
  else if a = "" then b
  else if "/".data.isSuffixOf a.data then a ++ b
  else a ++ "/" ++ b

-- A directory tree: the files it contains directly, in `os.listdir`
-- order, and its immediate subdirectories with their names, in listing
-- order.  This is the input that `os.walk` traverses top-down.
mutual

/-- A directory: its files and its named subdirectories, in listing order. -/
inductive Dir : Type where
  | mk : List String → DirList → Dir

/-- A list of named subdirectories. -/
inductive DirList : Type where
  | nil : DirList
  | cons : String → Dir → DirList → DirList

end

/-- The files directly inside a directory. -/
def Dir.files : Dir → List String
  | .mk fs _ => fs

/-- The immediate named subdirectories. -/
def Dir.subdirs : Dir → DirList
  | .mk _ ds => ds

/-- Line 32: a file is collected when its name ends with `.html` and is
not exactly `index.html`. -/
def qualifies (f : String) : Bool := pyEndsWith f ".html" && f != "index.html"

/-- The relative root that `os.path.relpath(root, source)` yields for a
child directory named `n` of a directory whose own relative root is
`rel`: the top level is `"."`, below it names are joined with `/`. -/
def childRel (rel n : String) : String := if rel = "." then n else rel ++ "/" ++ n

/-- Line 44: the stored href,
`os.path.join(src, relative_root, filename).replace(backslash, "/")`. -/
def mkHref (src rel f : String) : String :=
  pyReplace (pathJoin (pathJoin src rel) f) "\\" "/"

/-- Lines 26-29: the subfolder name shown in the display name: empty at
the root of the scanned tree, otherwise the relative root with
backslashes normalized. -/
def subfolderOf (rel : String) : String :=
  if rel = "." then "" else pyReplace rel "\\" "/"

/-- An entry as stored in `app_files_with_paths`: `(href, subfolder)`. -/
abbrev Entry := String × String

-- Lines 23-45: the `os.walk` collection loop.  `collectDir` handles one
-- walked directory (its qualifying files first, then its subtrees in
-- listing order, exactly the top-down order of `os.walk`); `rel` is the
-- walked directory's path relative to the scanned source.
mutual

/-- Entries collected from one walked directory and everything below it. -/
def collectDir (src : String) (d : Dir) (rel : String) : List Entry :=
  match d with
  | .mk fs ds =>
    (fs.filter qualifies).map (fun f => (mkHref src rel f, subfolderOf rel))
      ++ collectDirs src ds rel

/-- Entries collected from a list of named subdirectories. -/
def collectDirs (src : String) (l : DirList) (rel : String) : List Entry :=
  match l with
  | .nil => []
  | .cons n sub rest => collectDir src sub (childRel rel n) ++ collectDirs src rest rel

end

/-- Line 47's sort comparison: case-insensitive comparison of hrefs,
`key=lambda x: x[0].lower()`. -/
def entryLE (a b : Entry) : Bool := lexLE (lowerStr a.1).data (lowerStr b.1).data

/-- Lines 23-47: the collected entry list, sorted stably by lowercased
href (Python `list.sort` with a key is a stable sort). -/
def appEntries (src : String) (d : Dir) : List Entry :=
  (collectDir src d ".").mergeSort entryLE

/-- Lines 50-58: the display name of an entry with subfolder `sub` and
base filename `base`: the uppercased subfolder (when nonempty), then the
base name with `.html` occurrences removed, dashes turned into spaces
and uppercased, joined with `" / "`. -/
def displayName (sub base : String) : String :=
  String.intercalate " / "
    ((if sub ≠ "" then [upperStr sub] else [])
      ++ [upperStr (pyReplace (pyReplace base ".html" "") "-" " ")])

/-- Lines 61-73: the icon keyword chain, evaluated top to bottom on the
display name; the first matching branch wins, `📄` when none match. -/
def iconFor (dn : String) : String :=
  if pyIn "NBA" dn then "🏀"
  else if pyIn "NFL" dn then "🏈"
  else if pyIn "MLB" dn then "⚾"
  else if pyIn "WEATHER" dn || (pyIn "MAP" dn && pyIn "WEATHER" dn) then "🌦️"
  else if pyIn "GAME" dn || pyIn "FLIP" dn || pyIn "QWINGO" dn then "🎲"
  else if pyIn "LOGOMAP" dn then "🗺️"
  else if pyIn "PHOTO" dn then "📸"
  else if pyIn "PANEL" dn then "🖥️"
  else if pyIn "API" dn then "🔌"
  else if pyIn "AIRPORT" dn then "✈️"
  else if pyIn "RECEIPT" dn then "🧾"
  else if pyIn "SPORTS" dn then "🏆"
  else "📄"

/-- The data rendered into one card: href, display name, icon. -/
structure CardData where
  href : String
  name : String
  icon : String
deriving DecidableEq, Repr

/-- Lines 50-73: the card data computed for one entry. -/
def cardDataOf (e : Entry) : CardData :=
  let dn := displayName e.2 (basename e.1)
  ⟨e.1, dn, iconFor dn⟩

/-- Lines 49-83: the card data of all entries, in sorted order. -/
def cardsOf (src : String) (d : Dir) : List CardData :=
  (appEntries src d).map cardDataOf

/-- Lines 75-82: the card markup up to the href slot. -/
def cardA : String := "\n            <a href=\""

/-- Card markup between the href and the icon slot. -/
def cardB : String := "\" class=\"glass-tile rounded-2xl p-6 flex flex-col items-center justify-center gap-4 text-center group h-40\">\n                <div class=\"text-4xl group-hover:scale-110 transition-transform duration-300 drop-shadow-2xl filter\">"

/-- Card markup between the icon and the display-name slot. -/
def cardC : String := "</div>\n                <div class=\"w-full\">\n                    <div class=\"text-xs font-black text-white tracking-wider truncate w-full group-hover:text-blue-400 transition-colors\">"

/-- Card markup after the display name. -/
def cardD : String := "</div>\n                </div>\n            </a>\n        "

/-- Lines 75-82: one rendered card, the f-string `card_html`. -/
def cardHtml (c : CardData) : String :=
  cardA ++ c.href ++ cardB ++ c.icon ++ cardC ++ c.name ++ cardD

/-- Lines 85-133: the page shell before the entry-count slot. -/
def pagePre : String := "\n<!DOCTYPE html>\n<html lang=\"en\">\n<head>\n    <meta charset=\"UTF-8\">\n    <meta name=\"viewport\" content=\"width=device-width, initial-scale=1.0\">\n    <title>App Launcher (pi)</title>\n    <script src=\"https://cdn.tailwindcss.com\"></script>\n    <link href=\"https://fonts.googleapis.com/css2?family=Inter:wght@300;400;600;700;900&display=swap\" rel=\"stylesheet\">\n    <style>\n        body \x7b \n            font-family: \x27Inter\x27, sans-serif; \n            background-color: #020617; \n            background-image: \n                radial-gradient(at 0% 0%, rgba(56, 189, 248, 0.1) 0px, transparent 50%), \n                radial-gradient(at 100% 100%, rgba(139, 92, 246, 0.1) 0px, transparent 50%);\n            color: #f8fafc; \n            min-height: 100vh;\n        \x7d\n        \n        .glass-tile \x7b\n            background: rgba(30, 41, 59, 0.4);\n            backdrop-filter: blur(12px);\n            border: 1px solid rgba(255, 255, 255, 0.05);\n            transition: all 0.3s cubic-bezier(0.4, 0, 0.2, 1);\n        \x7d\n        \n        .glass-tile:hover \x7b\n            background: rgba(30, 41, 59, 0.7);\n            border-color: rgba(56, 189, 248, 0.3);\n            transform: translateY(-4px);\n            box-shadow: 0 10px 40px -10px rgba(0, 0, 0, 0.5);\n        \x7d\n    </style>\n</head>\n<body class=\"p-6 md:p-12 flex flex-col gap-8\">\n\n    <!-- Header -->\n    <header class=\"flex items-center justify-between\">\n        <div class=\"flex items-center gap-4\">\n            <div class=\"w-12 h-12 bg-slate-800 rounded-2xl flex items-center justify-center text-blue-400 font-black text-2xl shadow-xl border border-slate-700\">\n                🚀\n            </div>\n            <div>\n                <h1 class=\"text-3xl font-black uppercase tracking-tighter text-white\">App Launcher (pi)</h1>\n                <p class=\"text-xs font-bold text-slate-500 uppercase tracking-widest\">Repository Index</p>\n            </div>\n        </div>\n        <div class=\"text-xs font-mono text-slate-500\">"

/-- Page shell between the entry count and the joined cards. -/
def pageMid : String := " Apps Detected</div>\n    </header>\n\n    <!-- App Grid -->\n    <main id=\"app-grid\" class=\"grid grid-cols-2 sm:grid-cols-3 md:grid-cols-4 lg:grid-cols-5 xl:grid-cols-6 gap-4\">\n        "

/-- Page shell after the joined cards. -/
def pagePost : String := "\n    </main>\n\n</body>\n</html>\n    "

/-- Lines 85-143: the f-string `full_html_content`, which interpolates
the entry count and the concatenation of the cards into the fixed shell. -/
def pageHtml (n : Nat) (cards : String) : String :=
  pagePre ++ toString n ++ pageMid ++ cards ++ pagePost

/-- The observable outcome of a run: the exit code, the lines printed,
and the file written (path and content), if any. -/
structure GenResult where
  exitCode : Nat
  printed : List String
  written : Option (String × String)
deriving DecidableEq, Repr

/-- Line 19's error message. -/
def errMsg (src : String) : String :=
  "Error: Source directory \x27" ++ src ++ "\x27 not found."

/-- Line 149's success message. -/
def doneMsg (n : Nat) (path : String) : String :=
  "Generated index.html with " ++ toString n ++ " apps in " ++ path

/-- Line 153's usage message. -/
def usageMsg : String :=
  "Usage: python generate_index.py <apps_source_directory> <output_index_directory>"

/-- Lines 5-149: the whole `generate_index_html` function.  The
filesystem is abstracted to the scanned tree: `srcTree` is `some d` when
`os.path.isdir(src)` holds, with `d` the tree rooted at `src`, and
`none` when the source path does not exist or is not a directory. -/
def generate_index_html (srcTree : Option Dir) (src out : String) : GenResult :=
  match srcTree with
  | none => ⟨1, [errMsg src], none⟩
  | some d =>
    let entries := appEntries src d
    let page :=
      pageHtml entries.length (String.join (entries.map (fun e => cardHtml (cardDataOf e))))
    let path := pathJoin out "index.html"
    ⟨0, [doneMsg entries.length path], some (path, page)⟩

/-- Lines 151-159: the command-line entry point.  `fs` maps a path to
the directory tree rooted there when it is a directory; `argv` models
`sys.argv`, whose head is the program name. -/
def mainRun (fs : String → Option Dir) (argv : List String) : GenResult :=
  if argv.length < 3 then ⟨1, [usageMsg], none⟩
  else generate_index_html (fs (argv.getD 1 "")) (argv.getD 1 "") (argv.getD 2 "")

/-- A well-formed file or directory name: nonempty, not `.`, and free of
slashes and backslashes.  Real directory entries always satisfy this. -/
def goodName (s : String) : Bool :=
  s != "" && s != "." && s.data.all (fun c => c != '/' && c != '\\')

/-- A well-formed source-directory argument: nonempty, backslash-free
and without a trailing slash. -/
def goodSrc (s : String) : Bool :=
  s != "" && s.data.all (fun c => c != '\\') && !("/".data.isSuffixOf s.data)

/-- A well-formed non-root relative walk root: nonempty, not `.`, not
starting or ending with a slash, backslash-free.  `childRel` builds only
such strings from well-formed names. -/
def goodRel (rel : String) : Bool :=
  rel != "" && rel != "." && (rel.data.head? != some '/')
    && (rel.data.getLast? != some '/') && rel.data.all (fun c => c != '\\')

mutual

/-- All names in the tree are well formed. -/
def goodDir : Dir → Bool
  | .mk fs ds => fs.all goodName && goodDirs ds

/-- All names in a subdirectory list are well formed. -/
def goodDirs : DirList → Bool
  | .nil => true
  | .cons n sub rest => goodName n && goodDir sub && goodDirs rest

end

mutual

/-- The number of qualifying files anywhere under a tree. -/
def countQ : Dir → Nat
  | .mk fs ds => (fs.filter qualifies).length + countQs ds

/-- The number of qualifying files under a subdirectory list. -/
def countQs : DirList → Nat
  | .nil => 0
  | .cons _ sub rest => countQ sub + countQs rest

end

mutual

/-- The paths of all files in a tree, each joined below the prefix
`pre`: the ground-truth locations of the files on disk. -/
def filePathsDir : Dir → String → List String
  | .mk fs ds, pre => fs.map (fun f => pathJoin pre f) ++ filePathsDirs ds pre

/-- The paths of all files under a subdirectory list. -/
def filePathsDirs : DirList → String → List String
  | .nil, _ => []
  | .cons n sub rest, pre => filePathsDir sub (pathJoin pre n) ++ filePathsDirs rest pre

end

/-- Modelled from the spec's icon table (§4.2): the ordered rows of
(predicate, glyph), for comparison against the code's `iconFor` chain. -/
def iconTable : List ((String → Bool) × String) :=
  [ (fun dn => pyIn "NBA" dn, "🏀"),
    (fun dn => pyIn "NFL" dn, "🏈"),
    (fun dn => pyIn "MLB" dn, "⚾"),
    (fun dn => pyIn "WEATHER" dn || (pyIn "MAP" dn && pyIn "WEATHER" dn), "🌦️"),
    (fun dn => pyIn "GAME" dn || pyIn "FLIP" dn || pyIn "QWINGO" dn, "🎲"),
    (fun dn => pyIn "LOGOMAP" dn, "🗺️"),
    (fun dn => pyIn "PHOTO" dn, "📸"),
    (fun dn => pyIn "PANEL" dn, "🖥️"),
    (fun dn => pyIn "API" dn, "🔌"),
    (fun dn => pyIn "AIRPORT" dn, "✈️"),
    (fun dn => pyIn "RECEIPT" dn, "🧾"),
    (fun dn => pyIn "SPORTS" dn, "🏆") ]

/-- Modelled from the spec (§4.2): evaluate an ordered table top to
bottom against the display name; the first matching row wins and `📄`
is used when no row matches. -/
def selectIcon : List ((String → Bool) × String) → String → String
  | [], _ => "📄"
  | r :: rs, dn => if r.1 dn then r.2 else selectIcon rs dn

/-- The display-name transform as claim C6 words it: the `.html`
extension removed (only the suffix), dashes to spaces, uppercased. -/
def extOnlyName (base : String) : String :=
  upperStr (pyReplace
    (if pyEndsWith base ".html" then ⟨base.data.take (base.data.length - 5)⟩ else base)
    "-" " ")

/-- The display-name formula with C6's amendment: every occurrence of
the substring `.html` removed, dashes to spaces, uppercased; prefixed by
the uppercased subfolder when one exists. -/
def allOccName (sub base : String) : String :=
  let core := upperStr (pyReplace (pyReplace base ".html" "") "-" " ")
  if sub = "" then core else upperStr sub ++ " / " ++ core

/-- The `apps/` tree of the C1 scenario: `apps/index.html` and
`apps/weather/today.html`. -/
def appsTree : Dir := .mk ["index.html"] (.cons "weather" (.mk ["today.html"] .nil) .nil)

/-- A working-directory tree containing `appsTree` at `apps`. -/
def cwdTree : Dir := .mk [] (.cons "apps" appsTree .nil)

/-- A tree with the single root file `a.html.html`. -/
def dotTree : Dir := .mk ["a.html.html"] .nil

/-- A tree with the single root file `nba-highlights.html`. -/
def nbaTree : Dir := .mk ["nba-highlights.html"] .nil

/-- A filesystem with one directory `somedir` holding `a.html`. -/
def oneDirFs : String → Option Dir :=
  fun p => if p = "somedir" then some (.mk ["a.html"] .nil) else none

end GenIndex

namespace GenIndex

theorem data_ne_nil {s : String} (h : s ≠ "") : s.data ≠ [] := by
  intro hd
  exact h (String.ext (hd.trans rfl))

theorem ne_empty_of_data_ne_nil {s : String} (h : s.data ≠ []) : s ≠ "" := by
  intro he
  exact h (by rw [he])

theorem slash_not_prefix_head {l : List Char} (h : l.head? ≠ some '/') :
    List.isPrefixOf "/".data l = false := by
  cases l with
  | nil => rfl
  | cons c cs =>
    have hc : c ≠ '/' := by
      intro hc; exact h (by simp [hc])
    show List.isPrefixOf ['/'] (c :: cs) = false
    simp [List.isPrefixOf]
    exact fun h' => hc h'.symm

theorem slash_not_suffix_last {x l : List Char} (hne : l ≠ [])
    (h : l.getLast? ≠ some '/') : List.isSuffixOf "/".data (x ++ l) = false := by
  show List.isPrefixOf "/".data.reverse (x ++ l).reverse = false
  have hrev : (x ++ l).reverse = l.reverse ++ x.reverse := List.reverse_append ..
  rw [hrev]
  obtain ⟨c, hc⟩ := Option.isSome_iff_exists.mp (List.getLast?_isSome.mpr hne)
  have hhead : (l.reverse ++ x.reverse).head? = some c := by
    simp [List.head?_append, List.head?_reverse, hc]
  have hcne : c ≠ '/' := by
    intro hcc; rw [hcc] at hc; exact h hc
  show List.isPrefixOf "/".data (l.reverse ++ x.reverse) = false
  exact slash_not_prefix_head (by rw [hhead]; simp [hcne])

theorem pathJoin_eq {a b : String} (ha : a ≠ "")
    (ha2 : List.isSuffixOf "/".data a.data = false)
    (hb : List.isPrefixOf "/".data b.data = false) :
    pathJoin a b = a ++ "/" ++ b := by
  simp [pathJoin, ha, ha2, hb]

theorem replFuel_bs_id : ∀ (fuel : Nat) (s : List Char),
    (∀ c ∈ s, c ≠ '\\') → replFuel ['\\'] ['/'] fuel s = s := by
  intro fuel
  induction fuel with
  | zero => intro s _; rfl
  | succ n ih =>
    intro s hs
    cases s with
    | nil => rfl
    | cons c cs =>
      have hc : c ≠ '\\' := hs c (List.mem_cons_self c cs)
      have hstrip : stripPre (c :: cs) ['\\'] = none := by
        simp [stripPre, hc]
      simp [replFuel, hstrip]
      exact ih cs (fun d hd => hs d (List.mem_cons_of_mem c hd))

theorem pyReplace_bs_id {s : String} (h : ∀ c ∈ s.data, c ≠ '\\') :
    pyReplace s "\\" "/" = s := by
  have : pyReplace s "\\" "/" = ⟨replFuel ['\\'] ['/'] s.data.length s.data⟩ := rfl
  rw [this, replFuel_bs_id _ _ h]

theorem head?_ne_slash {l : List Char} (h : ∀ c ∈ l, c ≠ '/') :
    l.head? ≠ some '/' := by
  cases l with
  | nil => simp
  | cons c cs =>
    simp only [List.head?_cons, ne_eq, Option.some.injEq]
    exact h c (List.mem_cons_self c cs)

theorem getLast?_ne_slash {l : List Char} (h : ∀ c ∈ l, c ≠ '/') :
    l.getLast? ≠ some '/' := by
  intro hl
  exact h '/' (List.mem_of_getLast?_eq_some hl) rfl

theorem append_ne_empty_right {a b : String} (hb : b ≠ "") : a ++ b ≠ "" := by
  intro he
  have hd : a.data ++ b.data = [] := by
    have := congrArg String.data he
    rwa [String.data_append] at this
  exact data_ne_nil hb (List.append_eq_nil.mp hd).2

theorem bs_free_append {a b : String} (ha : ∀ c ∈ a.data, c ≠ '\\')
    (hb : ∀ c ∈ b.data, c ≠ '\\') : ∀ c ∈ (a ++ b).data, c ≠ '\\' := by
  intro c hc
  rw [String.data_append] at hc
  rcases List.mem_append.mp hc with h | h
  · exact ha c h
  · exact hb c h

theorem bs_free_slash : ∀ c ∈ ("/" : String).data, c ≠ '\\' := by decide

theorem bs_free_dot : ∀ c ∈ ("." : String).data, c ≠ '\\' := by decide

theorem goodName_spec {s : String} (h : goodName s = true) :
    s ≠ "" ∧ s ≠ "." ∧ ∀ c ∈ s.data, c ≠ '/' ∧ c ≠ '\\' := by
  simpa [goodName, List.all_eq_true, and_assoc] using h

theorem goodSrc_spec {s : String} (h : goodSrc s = true) :
    s ≠ "" ∧ (∀ c ∈ s.data, c ≠ '\\') ∧ List.isSuffixOf "/".data s.data = false := by
  simpa [goodSrc, List.all_eq_true, and_assoc] using h

theorem goodRel_spec {s : String} (h : goodRel s = true) :
    s ≠ "" ∧ s ≠ "." ∧ s.data.head? ≠ some '/' ∧ s.data.getLast? ≠ some '/'
      ∧ ∀ c ∈ s.data, c ≠ '\\' := by
  simpa [goodRel, List.all_eq_true, and_assoc] using h

theorem pathJoin_below_rel {src rel b : String} (hr1 : rel ≠ "")
    (hr4 : rel.data.getLast? ≠ some '/') (hb : b.data.head? ≠ some '/') :
    pathJoin (src ++ "/" ++ rel) b = src ++ "/" ++ rel ++ "/" ++ b := by
  apply pathJoin_eq
  · exact append_ne_empty_right hr1
  · have hdata : (src ++ "/" ++ rel).data = (src ++ "/").data ++ rel.data := by
      simp [String.data_append]
    rw [hdata]
    exact slash_not_suffix_last (data_ne_nil hr1) hr4
  · exact slash_not_prefix_head hb

theorem mkHref_sub {src rel f : String} (hs : goodSrc src = true)
    (hr : goodRel rel = true) (hf : goodName f = true) :
    mkHref src rel f = src ++ "/" ++ rel ++ "/" ++ f := by
  obtain ⟨hs1, hs2, hs3⟩ := goodSrc_spec hs
  obtain ⟨hr1, _, hr3, hr4, hr5⟩ := goodRel_spec hr
  obtain ⟨hf1, _, hf3⟩ := goodName_spec hf
  have h1 : pathJoin src rel = src ++ "/" ++ rel :=
    pathJoin_eq hs1 hs3 (slash_not_prefix_head hr3)
  have h2 : pathJoin (src ++ "/" ++ rel) f = src ++ "/" ++ rel ++ "/" ++ f :=
    pathJoin_below_rel hr1 hr4 (head?_ne_slash (fun c hc => (hf3 c hc).1))
  show pyReplace (pathJoin (pathJoin src rel) f) "\\" "/" = _
  rw [h1, h2]
  exact pyReplace_bs_id
    (bs_free_append (bs_free_append (bs_free_append (bs_free_append hs2 bs_free_slash)
      hr5) bs_free_slash) (fun c hc => (hf3 c hc).2))

theorem mkHref_root {src f : String} (hs : goodSrc src = true)
    (hf : goodName f = true) : mkHref src "." f = src ++ "/./" ++ f := by
  obtain ⟨hs1, hs2, hs3⟩ := goodSrc_spec hs
  obtain ⟨hf1, _, hf3⟩ := goodName_spec hf
  have h1 : pathJoin src "." = src ++ "/" ++ "." :=
    pathJoin_eq hs1 hs3 (by decide)
  have h2 : pathJoin (src ++ "/" ++ ".") f = src ++ "/" ++ "." ++ "/" ++ f := by
    apply pathJoin_eq
    · exact append_ne_empty_right (by decide)
    · have hdata : (src ++ "/" ++ ".").data = (src ++ "/").data ++ ".".data := by
        simp [String.data_append]
      rw [hdata]
      exact slash_not_suffix_last (by decide) (by decide)
    · exact slash_not_prefix_head (head?_ne_slash (fun c hc => (hf3 c hc).1))
  have heq : src ++ "/" ++ "." ++ "/" ++ f = src ++ "/./" ++ f := by
    apply String.ext
    have e1 : ("/" : String).data = ['/'] := rfl
    have e2 : ("." : String).data = ['.'] := rfl
    have e3 : ("/./" : String).data = ['/', '.', '/'] := rfl
    simp [String.data_append, e1, e2, e3]
  show pyReplace (pathJoin (pathJoin src ".") f) "\\" "/" = _
  rw [h1, h2, heq]
  exact pyReplace_bs_id
    (bs_free_append (bs_free_append hs2 (by decide)) (fun c hc => (hf3 c hc).2))

theorem appEntries_of_collect_singleton {src : String} {d : Dir} {e : Entry}
    (h : collectDir src d "." = [e]) : appEntries src d = [e] := by
  unfold appEntries
  rw [h]
  exact List.mergeSort_of_sorted (by simp)

theorem appEntries_apps :
    appEntries "apps" appsTree = [("apps/weather/today.html", "weather")] :=
  appEntries_of_collect_singleton (by decide)

theorem appEntries_dot :
    appEntries "apps" dotTree = [("apps/./a.html.html", "")] :=
  appEntries_of_collect_singleton (by decide)

theorem appEntries_nba :
    appEntries "apps" nbaTree = [("apps/./nba-highlights.html", "")] :=
  appEntries_of_collect_singleton (by decide)

/-- C1: the scenario produces one card with the stated href and display
name, but its icon is `🌦️`, not the claimed default `📄`: the weather
branch fires on `WEATHER` alone, because its condition is a disjunction
whose first disjunct is the bare `WEATHER` test. -/
theorem C1_counterexample :
    cardsOf "apps" appsTree = [⟨"apps/weather/today.html", "WEATHER / TODAY", "🌦️"⟩]
    ∧ ("🌦️" : String) ≠ "📄" := by
  constructor
  · unfold cardsOf
    rw [appEntries_apps]
    decide
  · decide

/-- C1 amended: scanning `apps/` containing `apps/weather/today.html` and
`apps/index.html` with source `apps` and output `.` yields exactly one
card, with href `apps/weather/today.html`, display name
`WEATHER / TODAY`, and icon `🌦️` (the weather rule does match a name
containing WEATHER without MAP). -/
theorem C1_amended :
    generate_index_html (some appsTree) "apps" "." =
      ⟨0, [doneMsg 1 "./index.html"],
        some ("./index.html",
          pageHtml 1 (cardHtml ⟨"apps/weather/today.html", "WEATHER / TODAY", "🌦️"⟩))⟩ := by
  simp only [generate_index_html, appEntries_apps]
  rfl

/-- C2: invoked with exactly one directory argument, the program does not
scan or write anything: line 153 requires at least two arguments, so the
run prints the usage message and exits with status 1 even though the
named directory exists and contains a qualifying file. -/
theorem C2_counterexample :
    (mainRun oneDirFs ["generate_index.py", "somedir"]).written = none
    ∧ (mainRun oneDirFs ["generate_index.py", "somedir"]).exitCode = 1
    ∧ (mainRun oneDirFs ["generate_index.py", "somedir"]).printed = [usageMsg]
    ∧ oneDirFs "somedir" = some (.mk ["a.html"] .nil) := by
  exact ⟨rfl, rfl, rfl, by simp [oneDirFs]⟩

/-- C2 amended: every invocation with exactly one directory argument
prints the usage message, exits with status 1 and writes nothing; the
command line requires both a source and an output directory, so no
single-argument mode exists. -/
theorem C2_amended : ∀ (fs : String → Option Dir) (prog d : String),
    mainRun fs [prog, d] = ⟨1, [usageMsg], none⟩ :=
  fun _ _ _ => rfl

/-- C6: the code removes every occurrence of the substring `.html` from
the base filename (Python `str.replace` replaces all occurrences), not
just the extension: a root file `a.html.html` gets display name `A`,
while the claim's extension-only transform predicts `A.HTML`. -/
theorem C6_counterexample :
    cardsOf "apps" dotTree = [⟨"apps/./a.html.html", "A", "📄"⟩]
    ∧ extOnlyName "a.html.html" = "A.HTML"
    ∧ ("A" : String) ≠ "A.HTML" := by
  refine ⟨?_, by decide, by decide⟩
  unfold cardsOf
  rw [appEntries_dot]
  decide

/-- C6 amended: the display name equals UPPER(subfolder) + " / " +
UPPER(filename with every occurrence of the substring `.html` removed
and dashes replaced by spaces) when the subfolder is nonempty, and just
the transformed filename portion at the root; in particular a root file
`nba-highlights.html` yields display name `NBA HIGHLIGHTS`. -/
theorem C6_amended :
    (∀ sub base, displayName sub base = allOccName sub base)
    ∧ cardsOf "apps" nbaTree = [⟨"apps/./nba-highlights.html", "NBA HIGHLIGHTS", "🏀"⟩] := by
  constructor
  · intro sub base
    by_cases h : sub = ""
    · subst h
      simp only [displayName, allOccName, ne_eq, not_true_eq_false, if_false, ite_true,
        reduceIte]
      rfl
    · simp only [displayName, allOccName, ne_eq, h, not_false_eq_true, if_true, if_neg h,
        reduceIte]
      rfl
  · unfold cardsOf
    rw [appEntries_nba]
    decide

/-- C7: the icon of every entry is chosen by evaluating the spec's fixed
keyword table top to bottom against the uppercased display name, first
matching row winning, with `📄` as the default; a name containing both
NBA and GAME gets `🏀`. -/
theorem C7_icon_table :
    (∀ dn, iconFor dn = selectIcon iconTable dn) ∧ iconFor "NBA GAME" = "🏀" :=
  ⟨fun _ => rfl, by decide⟩

/-- C8: when the source directory does not exist or is not a directory,
the run prints an error message naming the path, exits with status 1 and
writes no output file. -/
theorem C8_missing_source : ∀ (src out : String),
    generate_index_html none src out = ⟨1, [errMsg src], none⟩ :=
  fun _ _ => rfl

/-- C9: the rendered page depends on nothing but the entry list — any
two runs whose collected entry lists agree produce byte-identical page
text, whatever the trees, source arguments and output arguments were. -/
theorem C9_deterministic : ∀ (t₁ t₂ : Dir) (src₁ src₂ out₁ out₂ : String),
    appEntries src₁ t₁ = appEntries src₂ t₂ →
    (generate_index_html (some t₁) src₁ out₁).written.map Prod.snd
      = (generate_index_html (some t₂) src₂ out₂).written.map Prod.snd := by
  intro t₁ t₂ s₁ s₂ o₁ o₂ h
  simp [generate_index_html, h]

/-- C9 witness: two runs on the unchanged `apps/` tree, even with
different output directories, emit byte-identical page text. -/
theorem C9_witness :
    appEntries "apps" appsTree = appEntries "apps" appsTree
    ∧ (generate_index_html (some appsTree) "apps" ".").written.map Prod.snd
      = (generate_index_html (some appsTree) "apps" "elsewhere").written.map Prod.snd :=
  ⟨rfl, C9_deterministic appsTree appsTree "apps" "apps" "." "elsewhere" rfl⟩

mutual

theorem collectDir_length : ∀ (d : Dir) (src rel : String),
    (collectDir src d rel).length = countQ d
  | .mk fs ds, src, rel => by
    simp [collectDir, countQ, collectDirs_length ds src rel]

theorem collectDirs_length : ∀ (l : DirList) (src rel : String),
    (collectDirs src l rel).length = countQs l
  | .nil, _, _ => rfl
  | .cons n sub rest, src, rel => by
    simp [collectDirs, countQs, collectDir_length sub src (childRel rel n),
      collectDirs_length rest src rel]

end

mutual

theorem collectDir_shape : ∀ (d : Dir) (src rel : String) (e : Entry),
    e ∈ collectDir src d rel →
    ∃ r f, qualifies f = true ∧ e = (mkHref src r f, subfolderOf r)
  | .mk fs ds, src, rel, e => by
    intro he
    rw [collectDir] at he
    rcases List.mem_append.mp he with h | h
    · obtain ⟨f, hf, hfe⟩ := List.mem_map.mp h
      exact ⟨rel, f, (List.mem_filter.mp hf).2, hfe.symm⟩
    · exact collectDirs_shape ds src rel e h

theorem collectDirs_shape : ∀ (l : DirList) (src rel : String) (e : Entry),
    e ∈ collectDirs src l rel →
    ∃ r f, qualifies f = true ∧ e = (mkHref src r f, subfolderOf r)
  | .nil, _, _, _ => by intro h; cases h
  | .cons n sub rest, src, rel, e => by
    intro he
    rw [collectDirs] at he
    rcases List.mem_append.mp he with h | h
    · exact collectDir_shape sub src (childRel rel n) e h
    · exact collectDirs_shape rest src rel e h

end

/-- C5: the number of rendered cards, the entry count interpolated into
the page header, and the count in the success message all equal the
number of files under the scanned tree whose name ends with `.html` and
is not exactly `index.html`; moreover every entry arises from a
qualifying file, so a file literally named `index.html` is never
included at any depth. -/
theorem C5_card_count : ∀ (t : Dir) (src out : String),
    (appEntries src t).length = countQ t
    ∧ (cardsOf src t).length = countQ t
    ∧ generate_index_html (some t) src out =
        ⟨0, [doneMsg (countQ t) (pathJoin out "index.html")],
          some (pathJoin out "index.html",
            pageHtml (countQ t)
              (String.join ((appEntries src t).map (fun e => cardHtml (cardDataOf e)))))⟩
    ∧ ∀ e ∈ appEntries src t, ∃ r f, qualifies f = true
        ∧ e = (mkHref src r f, subfolderOf r) := by
  intro t src out
  have hlen : (appEntries src t).length = countQ t := by
    unfold appEntries
    rw [List.length_mergeSort]
    exact collectDir_length t src "."
  refine ⟨hlen, ?_, ?_, ?_⟩
  · unfold cardsOf
    rw [List.length_map]
    exact hlen
  · simp [generate_index_html, hlen]
  · intro e he
    exact collectDir_shape t src "." e (List.mem_mergeSort.mp he)

/-- C5 witness: in the `apps/` scenario the sole entry is the qualifying
file `today.html`, and `index.html` is excluded. -/
theorem C5_witness :
    (("apps/weather/today.html", "weather") : Entry) ∈ appEntries "apps" appsTree
    ∧ ∃ r f, qualifies f = true
        ∧ (("apps/weather/today.html", "weather") : Entry)
            = (mkHref "apps" r f, subfolderOf r) := by
  have hm : (("apps/weather/today.html", "weather") : Entry) ∈ appEntries "apps" appsTree := by
    rw [appEntries_apps]
    exact List.mem_singleton.mpr rfl
  exact ⟨hm, (C5_card_count appsTree "apps" ".").2.2.2 _ hm⟩

theorem lexLE_total : ∀ (a b : List Char), (lexLE a b || lexLE b a) = true
  | [], b => by simp [lexLE]
  | a :: as, [] => by simp [lexLE]
  | a :: as, b :: bs => by
    simp only [lexLE]
    rcases Nat.lt_trichotomy a.toNat b.toNat with h | h | h
    · simp [h]
    · simp only [h, Nat.lt_irrefl, if_false, reduceIte]
      exact lexLE_total as bs
    · simp [h, Nat.not_lt.mpr (Nat.le_of_lt h)]

theorem lexLE_trans : ∀ (a b c : List Char),
    lexLE a b = true → lexLE b c = true → lexLE a c = true
  | [], _, _ => by simp [lexLE]
  | a :: as, [], c => by simp [lexLE]
  | a :: as, b :: bs, [] => by simp [lexLE]
  | a :: as, b :: bs, c :: cs => by
    simp only [lexLE]
    intro h1 h2
    by_cases hab : a.toNat < b.toNat
    · by_cases hbc : b.toNat < c.toNat
      · rw [if_pos (Nat.lt_trans hab hbc)]
      · by_cases hcb : c.toNat < b.toNat
        · rw [if_neg hbc, if_pos hcb] at h2
          exact absurd h2 (by simp)
        · have hac : a.toNat < c.toNat := by omega
          rw [if_pos hac]
    · by_cases hba : b.toNat < a.toNat
      · rw [if_neg hab, if_pos hba] at h1
        exact absurd h1 (by simp)
      · rw [if_neg hab, if_neg hba] at h1
        by_cases hbc : b.toNat < c.toNat
        · have hac : a.toNat < c.toNat := by omega
          rw [if_pos hac]
        · by_cases hcb : c.toNat < b.toNat
          · rw [if_neg hbc, if_pos hcb] at h2
            exact absurd h2 (by simp)
          · rw [if_neg hbc, if_neg hcb] at h2
            have hac : ¬ a.toNat < c.toNat := by omega
            have hca : ¬ c.toNat < a.toNat := by omega
            rw [if_neg hac, if_neg hca]
            exact lexLE_trans as bs cs h1 h2

theorem entryLE_trans : ∀ (a b c : Entry), entryLE a b → entryLE b c → entryLE a c :=
  fun _ _ _ h1 h2 => lexLE_trans _ _ _ h1 h2

theorem entryLE_total : ∀ (a b : Entry), (entryLE a b || entryLE b a) = true :=
  fun a b => lexLE_total (lowerStr a.1).data (lowerStr b.1).data

/-- C4: the emitted entry list is sorted so that whenever entry A
precedes entry B, the lowercased href of A is lexicographically at most
that of B; and the sort is stable: for every key, the entries whose
lowercased href equals that key appear in exactly their original
traversal order. -/
theorem C4_sorted_stable : ∀ (t : Dir) (src : String),
    List.Pairwise (fun a b : Entry =>
      lexLE (lowerStr a.1).data (lowerStr b.1).data = true) (appEntries src t)
    ∧ ∀ k : String,
        (appEntries src t).filter (fun e => lowerStr e.1 == k)
          = (collectDir src t ".").filter (fun e => lowerStr e.1 == k) := by
  intro t src
  constructor
  · exact List.sorted_mergeSort entryLE_trans entryLE_total (collectDir src t ".")
  · intro k
    have hmem_key : ∀ e ∈ (collectDir src t ".").filter (fun e => lowerStr e.1 == k),
        lowerStr e.1 = k := by
      intro e he
      exact eq_of_beq (List.mem_filter.mp he).2
    have hpw : List.Pairwise (fun a b : Entry => entryLE a b = true)
        ((collectDir src t ".").filter (fun e => lowerStr e.1 == k)) := by
      apply List.pairwise_of_forall_mem_list
      intro a ha b hb
      have hka := hmem_key a ha
      have hkb := hmem_key b hb
      show lexLE (lowerStr a.1).data (lowerStr b.1).data = true
      rw [hka, hkb]
      have htot := lexLE_total k.data k.data
      rcases Bool.or_eq_true_iff.mp htot with h | h <;> exact h
    have hsub : List.Sublist ((collectDir src t ".").filter (fun e => lowerStr e.1 == k))
        (appEntries src t) :=
      List.sublist_mergeSort entryLE_trans entryLE_total hpw (List.filter_sublist _)
    have hidem : ((collectDir src t ".").filter (fun e => lowerStr e.1 == k)).filter
        (fun e => lowerStr e.1 == k)
        = (collectDir src t ".").filter (fun e => lowerStr e.1 == k) :=
      List.filter_eq_self.mpr (fun a ha => (List.mem_filter.mp ha).2)
    have hsub2 : List.Sublist ((collectDir src t ".").filter (fun e => lowerStr e.1 == k))
        ((appEntries src t).filter (fun e => lowerStr e.1 == k)) := by
      have := hsub.filter (fun e => lowerStr e.1 == k)
      rwa [hidem] at this
    have hlen : ((appEntries src t).filter (fun e => lowerStr e.1 == k)).length
        = ((collectDir src t ".").filter (fun e => lowerStr e.1 == k)).length := by
      have hperm := List.mergeSort_perm (collectDir src t ".") entryLE
      exact (hperm.filter (fun e => lowerStr e.1 == k)).length_eq
    exact (hsub2.eq_of_length hlen.symm).symm

/-- C10: every qualifying file at the root of the scanned tree is stored
with href `source ++ "/./" ++ filename` — the relative root `.` is
joined into the path literally — which is not the plain
`source ++ "/" ++ filename`. -/
theorem C10_root_href : ∀ (t : Dir) (src f : String),
    goodSrc src = true → goodDir t = true → f ∈ t.files → qualifies f = true →
    (src ++ "/./" ++ f, "") ∈ appEntries src t
    ∧ src ++ "/./" ++ f ≠ src ++ "/" ++ f := by
  intro t src f hs ht hf hq
  cases t with
  | mk fs ds =>
    simp only [Dir.files] at hf
    have hgf : goodName f = true := by
      rw [goodDir, Bool.and_eq_true, List.all_eq_true] at ht
      exact ht.1 f hf
    constructor
    · unfold appEntries
      apply List.mem_mergeSort.mpr
      rw [collectDir]
      apply List.mem_append_left
      apply List.mem_map.mpr
      refine ⟨f, List.mem_filter.mpr ⟨hf, hq⟩, ?_⟩
      rw [mkHref_root hs hgf]
      rfl
    · intro heq
      have hd := congrArg String.data heq
      have h3 : ("/./" : String).data = ['/', '.', '/'] := rfl
      have h1 : ("/" : String).data = ['/'] := rfl
      simp only [String.data_append, h3, h1] at hd
      have hl := congrArg List.length hd
      simp [List.length_append] at hl
      omega

theorem goodRel_of_goodName {n : String} (h : goodName n = true) :
    goodRel n = true := by
  obtain ⟨h1, h2, h3⟩ := goodName_spec h
  have hnoslash : ∀ c ∈ n.data, c ≠ '/' := fun c hc => (h3 c hc).1
  simp only [goodRel, Bool.and_eq_true, bne_iff_ne, ne_eq]
  refine ⟨⟨⟨⟨?_, ?_⟩, ?_⟩, ?_⟩, ?_⟩
  · exact h1
  · exact h2
  · simpa using head?_ne_slash hnoslash
  · simpa using getLast?_ne_slash hnoslash
  · rw [List.all_eq_true]
    intro c hc
    simpa using (h3 c hc).2

theorem goodRel_append {rel n : String} (hr : goodRel rel = true)
    (hn : goodName n = true) : goodRel (rel ++ "/" ++ n) = true := by
  obtain ⟨hr1, hr2, hr3, hr4, hr5⟩ := goodRel_spec hr
  obtain ⟨hn1, hn2, hn3⟩ := goodName_spec hn
  have hslash : ('/' : Char) ∈ (rel ++ "/" ++ n).data := by
    simp [String.data_append]
  have hdata : (rel ++ "/" ++ n).data = (rel ++ "/").data ++ n.data := by
    simp [String.data_append]
  have hhead : ∃ c, (rel ++ "/" ++ n).data.head? = some c ∧ c ≠ '/' := by
    obtain ⟨c, cs, hcons⟩ := List.exists_cons_of_ne_nil (data_ne_nil hr1)
    refine ⟨c, ?_, ?_⟩
    · simp [String.data_append, hcons]
    · intro hcc
      apply hr3
      rw [hcons, hcc]
      rfl
  have hlast : ∃ c, (rel ++ "/" ++ n).data.getLast? = some c ∧ c ≠ '/' := by
    obtain ⟨c, hc⟩ := Option.isSome_iff_exists.mp
      (List.getLast?_isSome.mpr (data_ne_nil hn1))
    refine ⟨c, ?_, ?_⟩
    · rw [hdata, List.getLast?_append, hc]
      rfl
    · intro hcc
      rw [hcc] at hc
      exact getLast?_ne_slash (fun d hd => (hn3 d hd).1) hc
  obtain ⟨ch, hch, hchne⟩ := hhead
  obtain ⟨cl, hcl, hclne⟩ := hlast
  simp only [goodRel, Bool.and_eq_true, bne_iff_ne, ne_eq]
  refine ⟨⟨⟨⟨?_, ?_⟩, ?_⟩, ?_⟩, ?_⟩
  · exact append_ne_empty_right hn1
  · intro h
    rw [h] at hslash
    simp at hslash
  · intro h
    rw [hch] at h
    exact hchne (Option.some.inj h)
  · intro h
    rw [hcl] at h
    exact hclne (Option.some.inj h)
  · rw [List.all_eq_true]
    intro c hc
    rw [hdata] at hc
    simp only [bne_iff_ne, ne_eq]
    rcases List.mem_append.mp hc with h | h
    · rw [String.data_append] at h
      rcases List.mem_append.mp h with h' | h'
      · exact hr5 c h'
      · have hcc : c = '/' := by simpa using h'
        subst hcc
        decide
    · exact (hn3 c h).2

mutual

theorem collect_sub_dir : ∀ (d : Dir) (src rel : String),
    goodSrc src = true → goodRel rel = true → goodDir d = true →
    ∀ e ∈ collectDir src d rel, e.1 ∈ filePathsDir d (src ++ "/" ++ rel)
  | .mk fs ds, src, rel => by
    intro hs hr hd e he
    rw [collectDir] at he
    rw [goodDir, Bool.and_eq_true, List.all_eq_true] at hd
    rw [filePathsDir]
    rcases List.mem_append.mp he with h | h
    · obtain ⟨f, hf, hfe⟩ := List.mem_map.mp h
      have hf1 := (List.mem_filter.mp hf).1
      have hgf : goodName f = true := hd.1 f hf1
      obtain ⟨hr1, _, _, hr4, _⟩ := goodRel_spec hr
      obtain ⟨_, _, hf3⟩ := goodName_spec hgf
      apply List.mem_append_left
      apply List.mem_map.mpr
      refine ⟨f, hf1, ?_⟩
      rw [pathJoin_below_rel hr1 hr4 (head?_ne_slash (fun c hc => (hf3 c hc).1)),
        ← mkHref_sub hs hr hgf, ← hfe]
    · exact List.mem_append_right _ (collect_sub_dirs ds src rel hs hr hd.2 e h)

theorem collect_sub_dirs : ∀ (l : DirList) (src rel : String),
    goodSrc src = true → goodRel rel = true → goodDirs l = true →
    ∀ e ∈ collectDirs src l rel, e.1 ∈ filePathsDirs l (src ++ "/" ++ rel)
  | .nil, _, _ => by
    intro _ _ _ e he
    rw [collectDirs] at he
    cases he
  | .cons n sub rest, src, rel => by
    intro hs hr hl e he
    rw [collectDirs] at he
    rw [goodDirs, Bool.and_eq_true, Bool.and_eq_true] at hl
    rw [filePathsDirs]
    rcases List.mem_append.mp he with h | h
    · obtain ⟨hr1, hr2, _, hr4, _⟩ := goodRel_spec hr
      obtain ⟨hn1, _, hn3⟩ := goodName_spec hl.1.1
      have hcr : childRel rel n = rel ++ "/" ++ n := by
        rw [childRel, if_neg hr2]
      have ih := collect_sub_dir sub src (rel ++ "/" ++ n) hs
        (goodRel_append hr hl.1.1) hl.1.2 e (by rwa [hcr] at h)
      apply List.mem_append_left
      rw [pathJoin_below_rel hr1 hr4 (head?_ne_slash (fun c hc => (hn3 c hc).1))]
      rw [show src ++ "/" ++ rel ++ "/" ++ n = src ++ "/" ++ (rel ++ "/" ++ n) by
        simp [String.append_assoc]]
      exact ih
    · exact List.mem_append_right _ (collect_sub_dirs rest src rel hs hr hl.2 e h)

end

theorem collect_root_dirs : ∀ (l : DirList) (src : String),
    goodSrc src = true → goodDirs l = true →
    ∀ e ∈ collectDirs src l ".", e.1 ∈ filePathsDirs l src
  | .nil, _ => by
    intro _ _ e he
    rw [collectDirs] at he
    cases he
  | .cons n sub rest, src => by
    intro hs hl e he
    rw [collectDirs] at he
    rw [goodDirs, Bool.and_eq_true, Bool.and_eq_true] at hl
    rw [filePathsDirs]
    rcases List.mem_append.mp he with h | h
    · obtain ⟨hs1, _, hs3⟩ := goodSrc_spec hs
      obtain ⟨hn1, _, hn3⟩ := goodName_spec hl.1.1
      have hcr : childRel "." n = n := by
        rw [childRel, if_pos rfl]
      have ih := collect_sub_dir sub src n hs (goodRel_of_goodName hl.1.1) hl.1.2 e
        (by rwa [hcr] at h)
      apply List.mem_append_left
      rw [pathJoin_eq hs1 hs3 (slash_not_prefix_head
        (head?_ne_slash (fun c hc => (hn3 c hc).1)))]
      exact ih
    · exact List.mem_append_right _ (collect_root_dirs rest src hs hl.2 e h)

theorem collect_root_dir : ∀ (t : Dir) (src : String),
    goodSrc src = true → goodDir t = true →
    ∀ e ∈ collectDir src t ".",
      e.1 ∈ filePathsDir t src
      ∨ ∃ f, f ∈ t.files ∧ qualifies f = true ∧ e.1 = src ++ "/./" ++ f
          ∧ pathJoin src f ∈ filePathsDir t src := by
  intro t src hs ht e he
  cases t with
  | mk fs ds =>
    rw [collectDir] at he
    rw [goodDir, Bool.and_eq_true, List.all_eq_true] at ht
    rcases List.mem_append.mp he with h | h
    · obtain ⟨f, hf, hfe⟩ := List.mem_map.mp h
      have hfq := List.mem_filter.mp hf
      have hgf : goodName f = true := ht.1 f hfq.1
      right
      refine ⟨f, hfq.1, hfq.2, ?_, ?_⟩
      · rw [← hfe]
        exact mkHref_root hs hgf
      · rw [filePathsDir]
        exact List.mem_append_left _ (List.mem_map.mpr ⟨f, hfq.1, rfl⟩)
    · left
      rw [filePathsDir]
      exact List.mem_append_right _ (collect_root_dirs ds src hs ht.2 e h)

/-- C3: with source `apps` and output `apps`, the file
`apps/weather/today.html` is stored with href `apps/weather/today.html`,
but its path relative to the output directory is `weather/today.html`;
resolving the stored href against the output directory lands on
`apps/apps/weather/today.html`, which is not a file of the working
tree.  The stored href is therefore not the path relative to the output
directory for every choice of directories. -/
theorem C3_counterexample :
    appEntries "apps" appsTree = [("apps/weather/today.html", "weather")]
    ∧ ("apps/weather/today.html" : String) ≠ "weather/today.html"
    ∧ pathJoin "apps" "apps/weather/today.html" = "apps/apps/weather/today.html"
    ∧ filePathsDir cwdTree "" = ["apps/index.html", "apps/weather/today.html"]
    ∧ "apps/apps/weather/today.html" ∉ filePathsDir cwdTree "" :=
  ⟨appEntries_apps, by decide, by decide, by decide, by decide⟩

/-- C3 amended: hrefs are relative to the invoker's working directory,
not to the output directory: for every tree and well-formed source path,
each stored href is either exactly the working-directory-relative path
of a file of the scanned tree, or — for a file at the scanned root —
`source ++ "/./" ++ filename`, whose collapsed form
`pathJoin source filename` is such a file path.  Resolving hrefs against
the output directory as the claim states them is hence only correct when
the output directory is the working directory `.`. -/
theorem C3_amended : ∀ (t : Dir) (src : String),
    goodSrc src = true → goodDir t = true →
    ∀ e ∈ appEntries src t,
      e.1 ∈ filePathsDir t src
      ∨ ∃ f, f ∈ t.files ∧ qualifies f = true ∧ e.1 = src ++ "/./" ++ f
          ∧ pathJoin src f ∈ filePathsDir t src := by
  intro t src hs ht e he
  exact collect_root_dir t src hs ht e (List.mem_mergeSort.mp he)

/-- C3 witness: in the `apps/` scenario the sole href is the
working-directory-relative path of `apps/weather/today.html`. -/
theorem C3_witness :
    (goodSrc "apps" = true ∧ goodDir appsTree = true
      ∧ (("apps/weather/today.html", "weather") : Entry) ∈ appEntries "apps" appsTree)
    ∧ (("apps/weather/today.html" : String) ∈ filePathsDir appsTree "apps"
        ∨ ∃ f, f ∈ appsTree.files ∧ qualifies f = true
            ∧ ("apps/weather/today.html" : String) = "apps" ++ "/./" ++ f
            ∧ pathJoin "apps" f ∈ filePathsDir appsTree "apps") := by
  have hm : (("apps/weather/today.html", "weather") : Entry) ∈ appEntries "apps" appsTree := by
    rw [appEntries_apps]
    exact List.mem_singleton.mpr rfl
  exact ⟨⟨by decide, by decide, hm⟩, C3_amended appsTree "apps" (by decide) (by decide) _ hm⟩

/-- C10 witness: the root file `nba-highlights.html` scanned from source
`apps` is stored as `apps/./nba-highlights.html`. -/
theorem C10_witness :
    (goodSrc "apps" = true ∧ goodDir nbaTree = true
      ∧ "nba-highlights.html" ∈ nbaTree.files ∧ qualifies "nba-highlights.html" = true)
    ∧ (("apps" ++ "/./" ++ "nba-highlights.html", "") : Entry) ∈ appEntries "apps" nbaTree
    ∧ "apps" ++ "/./" ++ "nba-highlights.html" ≠ "apps" ++ "/" ++ "nba-highlights.html" :=
  ⟨⟨by decide, by decide, by decide, by decide⟩,
    C10_root_href nbaTree "apps" "nba-highlights.html"
      (by decide) (by decide) (by decide) (by decide)⟩

end GenIndex

